import Mathlib

/-!
# Verification of the nunu2 evaluation core

A shallow embedding of `src/main.rs`: the AST (`Element`, `Block`), the
free-variable analyzer, the runtime `Value` model with closure capture,
the `Scope` activation-record stack, and the fueled recursive evaluator
(`eval`, `eval_call`, `eval_block`, `capture_block`).

Conventions of the embedding:
* Rust's `Vec<ScopeRecord>` pushes and pops at the END and lookup scans
  in reverse; here the list HEAD is the top of the stack (the innermost
  record) and lookup scans front to back, which is the same scan order.
* A record's `HashMap<String, Value>` is embedded as a function
  `String → Option Value`; `insert` is a pointwise update.
* A closure's captured `HashMap` must be iterated (the `for (arg, val) in
  captured` loop of `eval_call`), so it is embedded as an association
  list with insert-or-replace semantics (`Captured.insert`); its keys are
  kept duplicate-free, as a `HashMap`'s are. The list order stands for
  one arbitrary iteration order; order-independence is proved separately.
* The Rust evaluator can diverge (the scope stack is unbounded), so the
  evaluator takes fuel; `none` means the fuel ran out (or, for an empty
  `Call`, the `elems[0]` panic, which the spec declares undefined).
  `some (r, s)` is a completed evaluation with result `r` (a Rust
  `Result<Value, EvalError>`) and final scope `s`.
-/

mutual

/-- `enum Element` of `main.rs`. -/
inductive Element where
  | Variable : String → Element
  | Bare : String → Element
  | Number : Int → Element
  | Set : String → Element → Element
  | Block : Block → Element
  | Call : List Element → Element

/-- `struct Block` of `main.rs`. -/
inductive Block where
  | mk : (params : List String) → (commands : List Element) → Block

end

/-- `Block.params`. -/
def Block.params : Block → List String
  | .mk p _ => p

/-- `Block.commands`. -/
def Block.commands : Block → List Element
  | .mk _ c => c

mutual

/-- `Element::get_free_variables`: returns the free variables together
with the updated `known_variables` (the Rust function mutates its
`&mut Vec<String>` argument). -/
def Element.get_free_variables : Element → List String → List String × List String
  | .Variable v, known =>
      if v ∈ known then ([], known) else ([v], known)
  | .Set v b, known =>
      let r := Element.get_free_variables b known
      (r.1, r.2 ++ [v])
  | .Number _, known => ([], known)
  | .Bare _, known => ([], known)
  | .Block b, known => (Block.get_free_variables b known, known)
  | .Call elems, known => elemsFreeVars elems known

/-- The accumulation loop over a sequence of elements (the `for elem in
&self.commands` / `for elem in elems` loops), threading the known-set. -/
def elemsFreeVars : List Element → List String → List String × List String
  | [], known => ([], known)
  | e :: rest, known =>
      let r := Element.get_free_variables e known
      let r2 := elemsFreeVars rest r.2
      (r.1 ++ r2.1, r2.2)

/-- `Block::get_free_variables`: clones the known-set (so the caller's
copy is not mutated), extends it with the params, and scans the
commands. -/
def Block.get_free_variables : Block → List String → List String
  | .mk params commands, known =>
      (elemsFreeVars commands (known ++ params)).1

end

/-- `enum Internal` of `main.rs`. -/
inductive Internal where
  | Add
deriving DecidableEq

/-- `enum Value` of `main.rs`. The `Block` constructor is the closure
value: a block plus its captured snapshot (`type Captured =
HashMap<String, Value>`, embedded as an association list, see the file
header). The `i64` payload of `Int` is carried as a Lean `Int`; it is
pure data everywhere except the `Add` built-in, whose arithmetic
applies the explicit `i64` wrap (`wrapI64`). -/
inductive Value where
  | Nothing : Value
  | Int : Int → Value
  | String : String → Value
  | Block : Block → List (String × Value) → Value

abbrev Captured := List (String × Value)

/-- `enum EvalError` of `main.rs`. -/
inductive EvalError where
  | General : String → EvalError

/-- `HashMap::get` on the captured association list: first match wins
(the keys are duplicate-free, so any match is the unique one). -/
def Captured.get : Captured → String → Option Value
  | [], _ => none
  | (k, v) :: rest, name => if k = name then some v else Captured.get rest name

/-- `HashMap::insert` on the captured association list: replace the
binding if the key is present, otherwise append. -/
def Captured.insert : Captured → String → Value → Captured
  | [], name, value => [(name, value)]
  | (k, v) :: rest, name, value =>
      if k = name then (k, value) :: rest
      else (k, v) :: Captured.insert rest name value

/-- `struct ScopeRecord`: one activation record. The two `HashMap`s are
embedded as functions; the Rust field `variables` is named `vars` here
because `variables` is a reserved word in Lean. -/
structure ScopeRecord where
  (vars : String → Option Value)
  (commands : String → Option Internal)

/-- `ScopeRecord::new`. -/
def ScopeRecord.new : ScopeRecord :=
  { vars := fun _ => none, commands := fun _ => none }

/-- `struct Scope`: the activation-record stack. The list head is the
top (innermost) record; `Scope::new` starts with the single root. -/
structure Scope where
  records : List ScopeRecord

/-- `Scope::new`. -/
def Scope.new : Scope := { records := [ScopeRecord.new] }

/-- `Scope::get_variable`: scan from the innermost record outward. -/
def Scope.get_variable (s : Scope) (name : String) : Option Value :=
  go s.records
where
  go : List ScopeRecord → Option Value
    | [] => none
    | rec0 :: rest =>
        match rec0.vars name with
        | some v => some v
        | none => go rest

/-- `Scope::get_command`: scan from the innermost record outward. -/
def Scope.get_command (s : Scope) (name : String) : Option Internal :=
  go s.records
where
  go : List ScopeRecord → Option Internal
    | [] => none
    | rec0 :: rest =>
        match rec0.commands name with
        | some v => some v
        | none => go rest

/-- `Scope::add_variable`: insert/overwrite in the top record (no-op on
an empty stack, as `last_mut` then yields `None`). -/
def Scope.add_variable (s : Scope) (name : String) (value : Value) : Scope :=
  match s.records with
  | [] => s
  | rec0 :: rest =>
      { records :=
          { rec0 with
            vars := fun n => if n = name then some value else rec0.vars n }
          :: rest }

/-- `Scope::add_command`. -/
def Scope.add_command (s : Scope) (name : String) (internal : Internal) : Scope :=
  match s.records with
  | [] => s
  | rec0 :: rest =>
      { records :=
          { rec0 with
            commands := fun n => if n = name then some internal else rec0.commands n }
          :: rest }

/-- `Scope::enter_record`: push an empty record. -/
def Scope.enter_record (s : Scope) : Scope :=
  { records := ScopeRecord.new :: s.records }

/-- `Scope::exit_record`: pop, but never pop the last (root) record. -/
def Scope.exit_record (s : Scope) : Scope :=
  match s.records with
  | [] => s
  | [r] => { records := [r] }
  | _ :: rest => { records := rest }

/-- A Rust `Result<Value, EvalError>`. -/
abbrev EvalOutcome := Except EvalError Value

/-- The capture loop of `capture_block` (`for free_variable in
&free_variables`): look each free variable up in the scope, inserting
into the captured map, failing at the first unresolved one. -/
def captureLoop : List String → Scope → Captured → Except EvalError Captured
  | [], _, acc => .ok acc
  | fv :: rest, s, acc =>
      match s.get_variable fv with
      | some v => captureLoop rest s (acc.insert fv v)
      | none => .error (.General "Unknown variable")

/-- `capture_block`: free variables against an empty known-set, each
resolved in the current scope; the closure is built only if all
resolve. Takes `&Scope` (no mutation). -/
def capture_block (b : Block) (s : Scope) : Except EvalError Value :=
  let free_variables := Block.get_free_variables b []
  match captureLoop free_variables s [] with
  | .ok captured => .ok (.Block b captured)
  | .error e => .error e

/-- The parameter-binding loop of `eval_call` (`for (arg, param) in
args.iter().zip(b.params.iter())`). -/
def bindParams : List String → List Value → Scope → Scope
  | param :: params, arg :: args, s =>
      bindParams params args (s.add_variable param arg)
  | _, _, s => s

/-- The captured-binding loop of `eval_call` (`for (arg, val) in
captured`), run AFTER the parameter loop in the same record. -/
def bindCaptured : Captured → Scope → Scope
  | [], s => s
  | (name, val) :: rest, s => bindCaptured rest (s.add_variable name val)

/-- Reduction of an integer to the two's-complement `i64` range
`[-2^63, 2^63)`: what `i1 + i2` on `i64` computes in a release build
when the mathematical sum overflows (a debug build panics there
instead; on non-overflowing sums, where every theorem below evaluates
`Add`, the two build modes and the mathematical sum coincide). -/
def wrapI64 (n : Int) : Int :=
  (n + 2 ^ 63) % 2 ^ 64 - 2 ^ 63

/-- `wrapI64` is the identity exactly on the representable range. -/
theorem wrapI64_eq_self (n : Int) (h1 : -(2 ^ 63) ≤ n) (h2 : n < 2 ^ 63) :
    wrapI64 n = n := by
  have e1 : (2 : Int) ^ 63 = 9223372036854775808 := by norm_num
  have e2 : (2 : Int) ^ 64 = 18446744073709551616 := by norm_num
  unfold wrapI64
  rw [e1, e2]
  rw [e1] at h1 h2
  omega

/-- The `Internal::Add` arm of `eval_call` applied to the evaluated
arguments: arity check, then `i64` addition (with the explicit
two's-complement wrap of `wrapI64`), else a type error. -/
def applyAdd (args : List Value) : EvalOutcome :=
  if args.length ≠ 2 then .error (.General "Mismatched number of arguments")
  else
    match args with
    | [Value.Int i1, Value.Int i2] => .ok (.Int (wrapI64 (i1 + i2)))
    | _ => .error (.General "Add expected integers")

mutual

/-- `eval`: dispatch on the element kind. Fuel `0` means the (possibly
divergent) Rust evaluation has not completed within the given depth. -/
def eval : Nat → Element → Scope → Option (EvalOutcome × Scope)
  | 0, _, _ => none
  | _ + 1, .Variable name, s =>
      match s.get_variable name with
      | some v => some (.ok v, s)
      | none => some (.error (.General "Can not find variable"), s)
  | _ + 1, .Number n, s => some (.ok (.Int n), s)
  | fuel + 1, .Set name elem, s =>
      match eval fuel elem s with
      | none => none
      | some (.ok v, s1) => some (.ok .Nothing, s1.add_variable name v)
      | some (.error _, s1) => some (.error (.General "Failed to eval rhs"), s1)
  | fuel + 1, .Call elems, s => eval_call fuel elems s
  | _ + 1, .Block b, s =>
      match capture_block b s with
      | .ok v => some (.ok v, s)
      | .error e => some (.error e, s)
  | _ + 1, .Bare str, s => some (.ok (.String str), s)

/-- The argument loop of `eval_call` (`for elem in elems.iter().skip(1)`
with `?` propagation): left-to-right, stopping at the first error,
keeping the side effects of what was evaluated. -/
def evalArgs : Nat → List Element → Scope → Option (Except EvalError (List Value) × Scope)
  | 0, _, _ => none
  | _ + 1, [], s => some (.ok [], s)
  | fuel + 1, e :: rest, s =>
      match eval fuel e s with
      | none => none
      | some (.error err, s1) => some (.error err, s1)
      | some (.ok v, s1) =>
          match evalArgs fuel rest s1 with
          | none => none
          | some (.error err, s2) => some (.error err, s2)
          | some (.ok vs, s2) => some (.ok (v :: vs), s2)

/-- The closure-invocation tail of `eval_call`, entered after the arity
check: push a record, bind parameters then captured values, run the
body, pop the record unconditionally. -/
def callClosure : Nat → Block → Captured → List Value → Scope → Option (EvalOutcome × Scope)
  | 0, _, _, _, _ => none
  | fuel + 1, b, captured, args, s =>
      match eval_block fuel b.commands (bindCaptured captured (bindParams b.params args s.enter_record)) with
      | none => none
      | some (r, s2) => some (r, s2.exit_record)

/-- `eval_call`: evaluate `elems[0]` to the callee and branch on its
runtime kind. An empty `Call` panics in Rust (`elems[0]`); the spec
declares it undefined, embedded as `none`. -/
def eval_call : Nat → List Element → Scope → Option (EvalOutcome × Scope)
  | 0, _, _ => none
  | _ + 1, [], _ => none
  | fuel + 1, e0 :: rest, s =>
      match eval fuel e0 s with
      | none => none
      | some (.error e, s1) => some (.error e, s1)
      | some (.ok (Value.Block b captured), s1) =>
          match evalArgs fuel rest s1 with
          | none => none
          | some (.error e, s2) => some (.error e, s2)
          | some (.ok args, s2) =>
              if args.length ≠ b.params.length then
                some (.error (.General "Mismatched number of arguments"), s2)
              else
                callClosure fuel b captured args s2
      | some (.ok (Value.String str), s1) =>
          match s1.get_command str with
          | some Internal.Add =>
              match evalArgs fuel rest s1 with
              | none => none
              | some (.error e, s2) => some (.error e, s2)
              | some (.ok args, s2) => some (applyAdd args, s2)
          | none => some (.ok (.String "Ran an external command"), s1)
      | some (.ok _, s1) => some (.error (.General "Expected a command block"), s1)

/-- `eval_block` (the Rust function of that name): run the commands in
order, value of the last one, `Nothing` if empty. -/
def eval_block : Nat → List Element → Scope → Option (EvalOutcome × Scope)
  | 0, _, _ => none
  | fuel + 1, elems, s => evalBlockLoop fuel Value.Nothing elems s

/-- The loop of `eval_block`, carrying the running `output` value. -/
def evalBlockLoop : Nat → Value → List Element → Scope → Option (EvalOutcome × Scope)
  | 0, _, _, _ => none
  | _ + 1, output, [], s => some (.ok output, s)
  | fuel + 1, _, e :: rest, s =>
      match eval fuel e s with
      | none => none
      | some (.error err, s1) => some (.error err, s1)
      | some (.ok v, s1) => evalBlockLoop fuel v rest s1

end

/-! ## The demo environment of `main` and derived facts -/

/-- The scope `main` builds before the demo: `a = Int(10)` and the
`add` built-in registered, both in the root record. -/
def demoScope : Scope :=
  (Scope.new.add_variable "a" (Value.Int 10)).add_command "add" Internal.Add

/-- `block2` of `main`: `myblock(d) = add(d, a)`. -/
def myblockBlock : Block :=
  .mk ["d"] [.Call [.Bare "add", .Variable "d", .Variable "a"]]

/-- `demoScope` with `a` bound to an arbitrary integer instead of 10. -/
def demoScopeAt (n : Int) : Scope :=
  (Scope.new.add_variable "a" (Value.Int n)).add_command "add" Internal.Add

/-! ## Scope record-stack lemmas -/

/-- `add_variable` rewrites only the top record: the record count is
unchanged. -/
theorem Scope.add_variable_length (s : Scope) (n : String) (v : Value) :
    (s.add_variable n v).records.length = s.records.length := by
  cases h : s.records <;> simp [Scope.add_variable, h]

/-- `add_variable` rewrites only the top record: the records below it
are untouched. -/
theorem Scope.add_variable_tail (s : Scope) (n : String) (v : Value) :
    (s.add_variable n v).records.tail = s.records.tail := by
  cases h : s.records <;> simp [Scope.add_variable, h]

/-- `get_variable` on a cons-shaped stack: the top record first. -/
theorem Scope.get_variable_cons (r : ScopeRecord) (rest : List ScopeRecord) (n : String) :
    Scope.get_variable ⟨r :: rest⟩ n =
      match r.vars n with
      | some v => some v
      | none => Scope.get_variable ⟨rest⟩ n := rfl

/-- Looking up the name just added finds the added value (on a
non-empty stack). -/
theorem Scope.add_variable_get_self (s : Scope) (n : String) (v : Value)
    (h : s.records ≠ []) : (s.add_variable n v).get_variable n = some v := by
  obtain ⟨r, rest, hr⟩ := List.exists_cons_of_ne_nil h
  cases s
  cases hr
  simp [Scope.add_variable, Scope.get_variable_cons]

/-- Looking up a different name is unaffected by `add_variable`. -/
theorem Scope.add_variable_get_other (s : Scope) (n : String) (v : Value)
    (m : String) (h : m ≠ n) :
    (s.add_variable n v).get_variable m = s.get_variable m := by
  cases s with
  | mk records =>
    cases records with
    | nil => rfl
    | cons r rest => simp [Scope.add_variable, Scope.get_variable_cons, h]

/-- `add_variable` at two distinct names commutes. -/
theorem Scope.add_variable_comm (s : Scope) (n1 n2 : String) (v1 v2 : Value)
    (h : n1 ≠ n2) :
    (s.add_variable n1 v1).add_variable n2 v2
      = (s.add_variable n2 v2).add_variable n1 v1 := by
  cases s with
  | mk records =>
    cases records with
    | nil => rfl
    | cons r rest =>
      simp only [Scope.add_variable]
      congr 2
      congr 1
      funext m
      by_cases h1 : m = n1 <;> by_cases h2 : m = n2 <;>
        simp_all

/-! ## The call frame as a record-level computation -/

/-- `HashMap::insert` of one binding, at the level of a single record. -/
def recAdd (r : ScopeRecord) (n : String) (v : Value) : ScopeRecord :=
  { r with vars := fun m => if m = n then some v else r.vars m }

theorem Scope.add_variable_cons (r : ScopeRecord) (rest : List ScopeRecord)
    (n : String) (v : Value) :
    Scope.add_variable ⟨r :: rest⟩ n v = ⟨recAdd r n v :: rest⟩ := rfl

/-- The parameter-binding loop confined to one record. -/
def recBindParams : List String → List Value → ScopeRecord → ScopeRecord
  | param :: params, arg :: args, r => recBindParams params args (recAdd r param arg)
  | _, _, r => r

/-- The captured-binding loop confined to one record. -/
def recBindCaptured : Captured → ScopeRecord → ScopeRecord
  | [], r => r
  | (name, val) :: rest, r => recBindCaptured rest (recAdd r name val)

/-- `bindParams` only rewrites the top record. -/
theorem bindParams_cons (params : List String) (args : List Value)
    (r : ScopeRecord) (rest : List ScopeRecord) :
    bindParams params args ⟨r :: rest⟩ = ⟨recBindParams params args r :: rest⟩ := by
  induction params generalizing args r with
  | nil => cases args <;> rfl
  | cons p ps ih =>
    cases args with
    | nil => rfl
    | cons a as => simpa [bindParams, recBindParams, Scope.add_variable_cons] using ih as (recAdd r p a)

/-- `bindCaptured` only rewrites the top record. -/
theorem bindCaptured_cons (c : Captured) (r : ScopeRecord) (rest : List ScopeRecord) :
    bindCaptured c ⟨r :: rest⟩ = ⟨recBindCaptured c r :: rest⟩ := by
  induction c generalizing r with
  | nil => rfl
  | cons kv t ih =>
    obtain ⟨k, v⟩ := kv
    simpa [bindCaptured, recBindCaptured, Scope.add_variable_cons] using ih (recAdd r k v)

/-- Names other than `n` are unaffected by `recAdd`. -/
theorem recAdd_other (r : ScopeRecord) (n : String) (v : Value) (m : String)
    (h : m ≠ n) : (recAdd r n v).vars m = r.vars m := by
  simp [recAdd, h]

/-- `recBindCaptured` leaves a name outside the captured keys alone. -/
theorem recBindCaptured_not_mem (c : Captured) (r : ScopeRecord) (p : String)
    (h : p ∉ c.map Prod.fst) : (recBindCaptured c r).vars p = r.vars p := by
  induction c generalizing r with
  | nil => rfl
  | cons kv t ih =>
    obtain ⟨k, v⟩ := kv
    simp only [List.map_cons, List.mem_cons] at h
    push_neg at h
    simp [recBindCaptured, ih _ h.2, recAdd_other _ _ _ _ h.1]

/-- `recBindCaptured` binds a key of the captured map to its captured
value, provided the keys are duplicate-free. -/
theorem recBindCaptured_mem (c : Captured) (r : ScopeRecord) (p : String) (v : Value)
    (hn : (c.map Prod.fst).Nodup) (hg : Captured.get c p = some v) :
    (recBindCaptured c r).vars p = some v := by
  induction c generalizing r with
  | nil => simp [Captured.get] at hg
  | cons kv t ih =>
    obtain ⟨k, w⟩ := kv
    simp only [List.map_cons, List.nodup_cons] at hn
    by_cases hk : k = p
    · subst hk
      have hw : (recBindCaptured t (recAdd r k w)).vars k = some w := by
        rw [recBindCaptured_not_mem t _ k hn.1]
        simp [recAdd]
      simp only [Captured.get, if_pos rfl, Option.some.injEq] at hg
      rw [← hg]
      exact hw
    · simp only [Captured.get, if_neg hk] at hg
      simp [recBindCaptured, ih _ hn.2 hg]

/-- `recBindParams` leaves a name that is not a parameter alone. -/
theorem recBindParams_not_mem (params : List String) (args : List Value)
    (r : ScopeRecord) (p : String) (h : p ∉ params) :
    (recBindParams params args r).vars p = r.vars p := by
  induction params generalizing args r with
  | nil => cases args <;> rfl
  | cons q qs ih =>
    cases args with
    | nil => rfl
    | cons a as =>
      simp only [List.mem_cons] at h
      push_neg at h
      rw [recBindParams, ih as _ h.2, recAdd_other _ _ _ _ h.1]

/-- A parameter that is present (with the argument list at least as
long) ends up bound in the record. -/
theorem recBindParams_mem_isSome (params : List String) (args : List Value)
    (r : ScopeRecord) (p : String) (hlen : params.length ≤ args.length)
    (hp : p ∈ params) : ((recBindParams params args r).vars p).isSome := by
  induction params generalizing args r with
  | nil => simp at hp
  | cons q qs ih =>
    cases args with
    | nil => simp at hlen
    | cons a as =>
      simp only [List.length_cons, Nat.add_le_add_iff_right] at hlen
      rcases List.mem_cons.mp hp with h | h
      · subst h
        by_cases hq : p ∈ qs
        · exact ih as _ hlen hq
        · have hsome : ∀ r' : ScopeRecord, r'.vars p = some a →
              ((recBindParams qs as r').vars p).isSome := by
            intro r' hr'
            rw [recBindParams_not_mem qs as r' p hq, hr']
            rfl
          exact hsome (recAdd r p a) (by simp [recAdd])
      · exact ih as _ hlen h

/-- The scope in which a closure body runs: the caller's records with
one fresh record on top holding the parameter and captured bindings. -/
theorem frameScope_eq (params : List String) (args : List Value) (c : Captured)
    (s : Scope) :
    bindCaptured c (bindParams params args s.enter_record)
      = ⟨recBindCaptured c (recBindParams params args ScopeRecord.new) :: s.records⟩ := by
  rw [Scope.enter_record, bindParams_cons, bindCaptured_cons]

/-- In the call frame, a captured name resolves to its captured value
(captured bindings are applied last). -/
theorem frame_get_captured (params : List String) (args : List Value) (c : Captured)
    (s : Scope) (p : String) (v : Value)
    (hn : (c.map Prod.fst).Nodup) (hg : Captured.get c p = some v) :
    (bindCaptured c (bindParams params args s.enter_record)).get_variable p = some v := by
  rw [frameScope_eq, Scope.get_variable_cons, recBindCaptured_mem c _ p v hn hg]

/-- Popping a one-record (or empty) stack is a no-op. -/
theorem Scope.exit_record_small (s : Scope) (h : s.records.length ≤ 1) :
    s.exit_record = s := by
  cases s with
  | mk records =>
    cases records with
    | nil => rfl
    | cons r rest => cases rest with
      | nil => rfl
      | cons r2 rest2 => simp at h

/-- Popping a stack of at least two records drops exactly the top. -/
theorem Scope.exit_record_cons_cons (a b : ScopeRecord) (t : List ScopeRecord) :
    Scope.exit_record ⟨a :: b :: t⟩ = ⟨b :: t⟩ := rfl

/-! ## Keys of the captured map -/

/-- Membership in the keys after a `Captured.insert`. -/
theorem Captured.mem_keys_insert (c : Captured) (k : String) (v : Value) (m : String) :
    m ∈ (c.insert k v).map Prod.fst ↔ m ∈ c.map Prod.fst ∨ m = k := by
  induction c with
  | nil => simp [Captured.insert]
  | cons kv t ih =>
    obtain ⟨k1, v1⟩ := kv
    by_cases hk : k1 = k
    · subst hk
      simp only [Captured.insert, if_pos rfl]
      simp
      tauto
    · simp only [Captured.insert, if_neg hk]
      simp [ih]
      tauto

/-- `Captured.insert` keeps the keys duplicate-free. -/
theorem Captured.insert_keys_nodup (c : Captured) (k : String) (v : Value)
    (h : (c.map Prod.fst).Nodup) : ((c.insert k v).map Prod.fst).Nodup := by
  induction c with
  | nil => simp [Captured.insert]
  | cons kv t ih =>
    obtain ⟨k1, v1⟩ := kv
    simp only [List.map_cons, List.nodup_cons] at h
    by_cases hk : k1 = k
    · subst hk
      simpa [Captured.insert] using h
    · simp only [Captured.insert, if_neg hk]
      simp only [List.map_cons, List.nodup_cons]
      refine ⟨?_, ih h.2⟩
      rw [Captured.mem_keys_insert]
      push_neg
      exact ⟨h.1, hk⟩

/-- The capture loop keeps the captured keys duplicate-free. -/
theorem captureLoop_nodup : ∀ (l : List String) (s : Scope) (acc c : Captured),
    (acc.map Prod.fst).Nodup → captureLoop l s acc = .ok c →
    (c.map Prod.fst).Nodup := by
  intro l
  induction l with
  | nil =>
    intro s acc c h hc
    simp only [captureLoop] at hc
    cases hc
    exact h
  | cons fv rest ih =>
    intro s acc c h hc
    simp only [captureLoop] at hc
    cases hv : s.get_variable fv with
    | some v =>
      rw [hv] at hc
      exact ih s _ c (Captured.insert_keys_nodup acc fv v h) hc
    | none => rw [hv] at hc; cases hc

/-- The capture loop fails with the unresolved-variable error as soon as
any listed name has no binding in the scope. -/
theorem captureLoop_unbound : ∀ (l : List String) (s : Scope) (acc : Captured)
    (x : String), x ∈ l → s.get_variable x = none →
    captureLoop l s acc = .error (.General "Unknown variable") := by
  intro l
  induction l with
  | nil => intro s acc x hx; simp at hx
  | cons fv rest ih =>
    intro s acc x hx hnone
    simp only [captureLoop]
    cases hv : s.get_variable fv with
    | some v =>
      have hne : x ≠ fv := fun h => by rw [h, hv] at hnone; cases hnone
      rcases List.mem_cons.mp hx with h | h
      · exact absurd h hne
      · exact ih s _ x h hnone
    | none => rfl

/-! ## Frame discipline of the evaluator -/

/-- The record stacks of `s` and `s'` agree below the top: same number
of records, and identical records from the second one down. A completed
evaluation step relates its initial and final scope this way. -/
def FramesEq (s s' : Scope) : Prop :=
  s'.records.length = s.records.length ∧ s'.records.tail = s.records.tail

theorem FramesEq.refl (s : Scope) : FramesEq s s := ⟨rfl, rfl⟩

theorem FramesEq.trans {s1 s2 s3 : Scope} (h1 : FramesEq s1 s2)
    (h2 : FramesEq s2 s3) : FramesEq s1 s3 :=
  ⟨h2.1.trans h1.1, h2.2.trans h1.2⟩

theorem FramesEq.ne_nil {s s' : Scope} (hne : s.records ≠ [])
    (h : FramesEq s s') : s'.records ≠ [] := by
  intro h0
  apply hne
  have := h.1
  rw [h0] at this
  exact List.length_eq_zero.mp this.symm

theorem FramesEq.add_variable (s : Scope) (n : String) (v : Value) :
    FramesEq s (s.add_variable n v) :=
  ⟨Scope.add_variable_length s n v, Scope.add_variable_tail s n v⟩

/-- Master lemma: every completed evaluation step, started on a
non-empty record stack, preserves the record count and the records
below the top; a completed `callClosure` (whose record push/pop wraps
the body) returns the record stack exactly as it received it. -/
theorem evalFrames : ∀ fuel : Nat,
    (∀ e s r s', s.records ≠ [] → eval fuel e s = some (r, s') → FramesEq s s')
    ∧ (∀ es s r s', s.records ≠ [] → evalArgs fuel es s = some (r, s') → FramesEq s s')
    ∧ (∀ b c args s r s', s.records ≠ [] → callClosure fuel b c args s = some (r, s') → s' = s)
    ∧ (∀ es s r s', s.records ≠ [] → eval_call fuel es s = some (r, s') → FramesEq s s')
    ∧ (∀ es s r s', s.records ≠ [] → eval_block fuel es s = some (r, s') → FramesEq s s')
    ∧ (∀ out es s r s', s.records ≠ [] → evalBlockLoop fuel out es s = some (r, s') → FramesEq s s') := by
  intro fuel
  induction fuel with
  | zero =>
    refine ⟨?_, ?_, ?_, ?_, ?_, ?_⟩
    · intro e s r s' _ h; simp [eval] at h
    · intro es s r s' _ h; simp [evalArgs] at h
    · intro b c args s r s' _ h; simp [callClosure] at h
    · intro es s r s' _ h; simp [eval_call] at h
    · intro es s r s' _ h; simp [eval_block] at h
    · intro out es s r s' _ h; simp [evalBlockLoop] at h
  | succ fuel ih =>
    obtain ⟨ihEval, ihArgs, ihClosure, ihCall, ihBlock, ihLoop⟩ := ih
    refine ⟨?_, ?_, ?_, ?_, ?_, ?_⟩
    · -- eval
      intro e s r s' hne h
      cases e with
      | Variable name =>
        simp only [eval] at h
        split at h <;> (cases h; exact FramesEq.refl s)
      | Number n =>
        simp only [eval] at h; cases h; exact FramesEq.refl s
      | Bare str =>
        simp only [eval] at h; cases h; exact FramesEq.refl s
      | Set name elem =>
        simp only [eval] at h
        cases he : eval fuel elem s with
        | none => rw [he] at h; cases h
        | some pr =>
          obtain ⟨res, s1⟩ := pr
          rw [he] at h
          have h1 : FramesEq s s1 := ihEval elem s res s1 hne he
          cases res with
          | ok v =>
            cases h
            exact h1.trans (FramesEq.add_variable s1 name v)
          | error e0 => cases h; exact h1
      | Call elems =>
        simp only [eval] at h
        exact ihCall elems s r s' hne h
      | Block b =>
        simp only [eval] at h
        cases hc : capture_block b s <;> rw [hc] at h <;> (cases h; exact FramesEq.refl s)
    · -- evalArgs
      intro es s r s' hne h
      cases es with
      | nil => simp only [evalArgs] at h; cases h; exact FramesEq.refl s
      | cons e rest =>
        simp only [evalArgs] at h
        cases he : eval fuel e s with
        | none => rw [he] at h; cases h
        | some pr =>
          obtain ⟨res, s1⟩ := pr
          rw [he] at h
          have h1 : FramesEq s s1 := ihEval e s res s1 hne he
          cases res with
          | error err => cases h; exact h1
          | ok v =>
            dsimp only at h
            have hne1 : s1.records ≠ [] := FramesEq.ne_nil hne h1
            cases ha : evalArgs fuel rest s1 with
            | none => rw [ha] at h; cases h
            | some pr2 =>
              obtain ⟨res2, s2⟩ := pr2
              rw [ha] at h
              have h2 : FramesEq s1 s2 := ihArgs rest s1 res2 s2 hne1 ha
              cases res2 with
              | error err => cases h; exact h1.trans h2
              | ok vs => cases h; exact h1.trans h2
    · -- callClosure
      intro b c args s r s' hne h
      obtain ⟨hd, tl, hs⟩ := List.exists_cons_of_ne_nil hne
      simp only [callClosure] at h
      have hframe : bindCaptured c (bindParams b.params args s.enter_record)
          = ⟨recBindCaptured c (recBindParams b.params args ScopeRecord.new) :: hd :: tl⟩ := by
        rw [frameScope_eq, hs]
      rw [hframe] at h
      cases hb : eval_block fuel b.commands
          ⟨recBindCaptured c (recBindParams b.params args ScopeRecord.new) :: hd :: tl⟩ with
      | none => rw [hb] at h; cases h
      | some pr =>
        obtain ⟨res, s2⟩ := pr
        rw [hb] at h
        have h2 : FramesEq ⟨recBindCaptured c (recBindParams b.params args ScopeRecord.new) :: hd :: tl⟩ s2 :=
          ihBlock _ _ _ _ (by simp) hb
        obtain ⟨f2, hs2⟩ : ∃ f2, s2.records = f2 :: hd :: tl := by
          have hlen := h2.1
          have htl := h2.2
          cases hrec : s2.records with
          | nil => rw [hrec] at hlen; simp at hlen
          | cons a t =>
            rw [hrec] at htl
            simp at htl
            exact ⟨a, by rw [htl]⟩
        cases h
        have hx : s2.exit_record = ⟨hd :: tl⟩ := by
          cases s2 with
          | mk recs =>
            simp only at hs2
            subst hs2
            exact Scope.exit_record_cons_cons _ _ _
        rw [hx]
        cases s with
        | mk recs => simp only at hs; rw [hs]
    · -- eval_call
      intro es s r s' hne h
      cases es with
      | nil => simp only [eval_call] at h; exact Option.noConfusion h
      | cons e0 rest =>
        simp only [eval_call] at h
        cases he : eval fuel e0 s with
        | none => rw [he] at h; cases h
        | some pr =>
          obtain ⟨res, s1⟩ := pr
          rw [he] at h
          have h1 : FramesEq s s1 := ihEval e0 s res s1 hne he
          have hne1 : s1.records ≠ [] := FramesEq.ne_nil hne h1
          cases res with
          | error e => cases h; exact h1
          | ok v =>
            cases v with
            | Nothing => cases h; exact h1
            | Int n => cases h; exact h1
            | Block b captured =>
              dsimp only at h
              cases ha : evalArgs fuel rest s1 with
              | none => rw [ha] at h; cases h
              | some pr2 =>
                obtain ⟨res2, s2⟩ := pr2
                rw [ha] at h
                have h2 : FramesEq s1 s2 := ihArgs rest s1 res2 s2 hne1 ha
                have hne2 : s2.records ≠ [] := FramesEq.ne_nil hne1 h2
                cases res2 with
                | error e => cases h; exact h1.trans h2
                | ok args =>
                  dsimp only at h
                  split at h
                  · cases h; exact h1.trans h2
                  · have h3 : s' = s2 := ihClosure b captured args s2 r s' hne2 h
                    subst h3
                    exact h1.trans h2
            | String str =>
              dsimp only at h
              cases hcmd : s1.get_command str with
              | some i =>
                cases i
                rw [hcmd] at h
                dsimp only at h
                cases ha : evalArgs fuel rest s1 with
                | none => rw [ha] at h; cases h
                | some pr2 =>
                  obtain ⟨res2, s2⟩ := pr2
                  rw [ha] at h
                  have h2 : FramesEq s1 s2 := ihArgs rest s1 res2 s2 hne1 ha
                  cases res2 with
                  | error e => cases h; exact h1.trans h2
                  | ok args => cases h; exact h1.trans h2
              | none => rw [hcmd] at h; cases h; exact h1
    · -- eval_block
      intro es s r s' hne h
      simp only [eval_block] at h
      exact ihLoop Value.Nothing es s r s' hne h
    · -- evalBlockLoop
      intro out es s r s' hne h
      cases es with
      | nil => simp only [evalBlockLoop] at h; cases h; exact FramesEq.refl s
      | cons e rest =>
        simp only [evalBlockLoop] at h
        cases he : eval fuel e s with
        | none => rw [he] at h; cases h
        | some pr =>
          obtain ⟨res, s1⟩ := pr
          rw [he] at h
          have h1 : FramesEq s s1 := ihEval e s res s1 hne he
          cases res with
          | error err => cases h; exact h1
          | ok v =>
            dsimp only at h
            have hne1 : s1.records ≠ [] := FramesEq.ne_nil hne h1
            exact h1.trans (ihLoop v rest s1 r s' hne1 h)

/-- Whether a runtime value is an `Int` (the check `Add` performs). -/
def Value.isInt : Value → Bool
  | .Int _ => true
  | _ => false

/-- `recBindCaptured` never un-binds a name. -/
theorem recBindCaptured_isSome_mono (c : Captured) (r : ScopeRecord) (p : String)
    (h : (r.vars p).isSome) : ((recBindCaptured c r).vars p).isSome := by
  induction c generalizing r with
  | nil => exact h
  | cons kv t ih =>
    obtain ⟨k, v⟩ := kv
    apply ih
    by_cases hk : p = k
    · subst hk; simp [recAdd]
    · rw [recAdd_other _ _ _ _ hk]; exact h

/-- A key of the captured map is bound after `recBindCaptured`. -/
theorem recBindCaptured_isSome_of_mem (c : Captured) (r : ScopeRecord) (p : String)
    (h : p ∈ c.map Prod.fst) : ((recBindCaptured c r).vars p).isSome := by
  induction c generalizing r with
  | nil => simp at h
  | cons kv t ih =>
    obtain ⟨k, v⟩ := kv
    simp only [List.map_cons, List.mem_cons] at h
    by_cases hk : p = k
    · subst hk
      exact recBindCaptured_isSome_mono t _ p (by simp [recAdd])
    · rcases h with h | h
      · exact absurd h hk
      · exact ih _ h

/-- Injecting the captured bindings in any two orders that are
permutations of each other (the arbitrary `HashMap` iteration orders)
produces the same scope, as long as the keys are duplicate-free. -/
theorem bindCaptured_perm : ∀ {c1 c2 : Captured}, c1.Perm c2 →
    (c1.map Prod.fst).Nodup → ∀ s : Scope, bindCaptured c1 s = bindCaptured c2 s := by
  intro c1 c2 h
  induction h with
  | nil => intro _ _; rfl
  | cons a h ih =>
    intro hn s
    obtain ⟨k, v⟩ := a
    simp only [List.map_cons, List.nodup_cons] at hn
    simp only [bindCaptured]
    exact ih hn.2 _
  | swap x y t =>
    intro hn s
    obtain ⟨k1, v1⟩ := x
    obtain ⟨k2, v2⟩ := y
    simp only [List.map_cons, List.nodup_cons, List.mem_cons] at hn
    push_neg at hn
    simp only [bindCaptured]
    rw [Scope.add_variable_comm s _ _ _ _ hn.1.1]
  | trans h1 h2 ih1 ih2 =>
    intro hn s
    rw [ih1 hn s, ih2 ((List.Perm.nodup_iff (h1.map Prod.fst)).mp hn) s]

/-- The demo scope has its (single, root) record. -/
theorem demoScope_records_ne_nil : demoScope.records ≠ [] := by
  have h : demoScope.records.length = 1 := rfl
  intro h0
  rw [h0] at h
  cases h

/-! ## The claims -/

/-- C6: every completed evaluation leaves the number of activation
records unchanged (frames are popped on success and failure paths
alike), the stack never becomes empty, and `exit_record` is a no-op
when at most the root record remains. -/
theorem claim6_record_count_invariant :
    (∀ (fuel : Nat) (e : Element) (s : Scope) (r : EvalOutcome) (s' : Scope),
      s.records ≠ [] → eval fuel e s = some (r, s') →
      s'.records.length = s.records.length)
    ∧ (∀ (fuel : Nat) (e : Element) (s : Scope) (r : EvalOutcome) (s' : Scope),
      s.records ≠ [] → eval fuel e s = some (r, s') → s'.records ≠ [])
    ∧ (∀ s : Scope, s.records.length ≤ 1 → s.exit_record = s) := by
  refine ⟨?_, ?_, Scope.exit_record_small⟩
  · intro fuel e s r s' hne h
    exact ((evalFrames fuel).1 e s r s' hne h).1
  · intro fuel e s r s' hne h
    exact FramesEq.ne_nil hne ((evalFrames fuel).1 e s r s' hne h)

/-- Witness for C6: the record-count invariant applied to a completed
closure call in the demo scope. -/
theorem claim6_record_count_invariant_witness :
    demoScope.records.length = demoScope.records.length
    ∧ demoScope.records ≠ []
    ∧ Scope.new.exit_record = Scope.new :=
  ⟨claim6_record_count_invariant.1 6 (Element.Call [Element.Block (Block.mk [] [])])
      demoScope (.ok Value.Nothing) demoScope demoScope_records_ne_nil rfl,
   claim6_record_count_invariant.2.1 6 (Element.Call [Element.Block (Block.mk [] [])])
      demoScope (.ok Value.Nothing) demoScope demoScope_records_ne_nil rfl,
   claim6_record_count_invariant.2.2 Scope.new (by rw [show Scope.new.records.length = 1 from rfl])⟩

/-- C7: a parameter binding shadows any outer binding of the same name
for the duration of the call — with matching arity, the value a
parameter name resolves to inside the call frame exists and does not
depend on the outer scope at all — and a completed closure invocation
returns the scope exactly as the arity check left it, so every outer
record (its bindings included) is observable and unchanged afterwards. -/
theorem claim7_call_frame_isolation :
    (∀ (params : List String) (args : List Value) (c : Captured) (p : String),
      args.length = params.length → p ∈ params →
      ∃ w, ∀ s : Scope,
        (bindCaptured c (bindParams params args s.enter_record)).get_variable p = some w)
    ∧ (∀ (fuel : Nat) (b : Block) (c : Captured) (args : List Value)
        (s : Scope) (r : EvalOutcome) (s' : Scope),
      s.records ≠ [] → callClosure fuel b c args s = some (r, s') → s' = s) := by
  constructor
  · intro params args c p hlen hp
    have hsome : ((recBindCaptured c (recBindParams params args ScopeRecord.new)).vars p).isSome := by
      by_cases hc : p ∈ c.map Prod.fst
      · exact recBindCaptured_isSome_of_mem c _ p hc
      · rw [recBindCaptured_not_mem _ _ _ hc]
        exact recBindParams_mem_isSome params args _ p (le_of_eq hlen.symm) hp
    obtain ⟨w, hw⟩ := Option.isSome_iff_exists.mp hsome
    refine ⟨w, fun s => ?_⟩
    rw [frameScope_eq, Scope.get_variable_cons, hw]
  · intro fuel b c args s r s' hne h
    exact (evalFrames fuel).2.2.1 b c args s r s' hne h

/-- Witness for C7: a one-parameter frame binds the parameter
regardless of the outer scope, and a completed concrete closure call
hands back its scope unchanged. -/
theorem claim7_call_frame_isolation_witness :
    (∃ w, ∀ s : Scope,
      (bindCaptured [] (bindParams ["x"] [Value.Int 5] s.enter_record)).get_variable "x" = some w)
    ∧ demoScope = demoScope :=
  ⟨claim7_call_frame_isolation.1 ["x"] [Value.Int 5] [] "x" (by decide) (by decide),
   claim7_call_frame_isolation.2 5 (Block.mk [] []) [] [] demoScope
      (.ok Value.Nothing) demoScope demoScope_records_ne_nil rfl⟩

/-- C8: free-variable analysis is order-sensitive — a `Set` binds its
name for subsequent siblings only: `[Set x 1, Variable x]` has no free
variables while `[Variable x, Set x 1]` has free variable `x`, and the
right-hand side of a `Set` is analyzed before its name joins the
known-set (so it may not self-reference). -/
theorem claim8_free_variables_order_sensitive :
    Block.get_free_variables (.mk [] [.Set "x" (.Number 1), .Variable "x"]) [] = []
    ∧ Block.get_free_variables (.mk [] [.Variable "x", .Set "x" (.Number 1)]) [] = ["x"]
    ∧ (∀ (v : String) (e : Element) (known : List String),
        Element.get_free_variables (.Set v e) known
          = ((Element.get_free_variables e known).1,
             (Element.get_free_variables e known).2 ++ [v]))
    ∧ Element.get_free_variables (.Set "x" (.Variable "x")) [] = (["x"], ["x"]) :=
  ⟨rfl, rfl, fun _ _ _ => rfl, rfl⟩

/-- C5 counterexample: at `i64::MAX` plus `1` the source's `i64`
addition does not return the mathematical sum — the release build
wraps to `i64::MIN` (a debug build panics, also not the sum) — so the
claim's unrestricted "returns the Int sum of the two" fails at this
input. -/
theorem claim5_add_overflow_counterexample :
    applyAdd [Value.Int 9223372036854775807, Value.Int 1]
      = .ok (.Int (-9223372036854775808))
    ∧ (-9223372036854775808 : Int) ≠ 9223372036854775807 + 1 :=
  ⟨rfl, by decide⟩

/-- C5 (amended): `Add` with two integer arguments returns their
two's-complement `i64`-wrapped sum; whenever the mathematical sum is
representable in `i64` that IS the sum. It fails with the type error
if either argument is not an `Int`, and with the arity error when not
given exactly two arguments; end to end, `add 3 4` evaluates to
`Int 7` and `add 1 "a"` to the type error. -/
theorem claim5_add_builtin :
    (∀ i1 i2 : Int, applyAdd [Value.Int i1, Value.Int i2]
        = .ok (.Int (wrapI64 (i1 + i2))))
    ∧ (∀ i1 i2 : Int, -(2 ^ 63) ≤ i1 + i2 → i1 + i2 < 2 ^ 63 →
        applyAdd [Value.Int i1, Value.Int i2] = .ok (.Int (i1 + i2)))
    ∧ (∀ v1 v2 : Value, (v1.isInt = false ∨ v2.isInt = false) →
        applyAdd [v1, v2] = .error (.General "Add expected integers"))
    ∧ (∀ args : List Value, args.length ≠ 2 →
        applyAdd args = .error (.General "Mismatched number of arguments"))
    ∧ (∀ i1 i2 : Int, -(2 ^ 63) ≤ i1 + i2 → i1 + i2 < 2 ^ 63 →
        eval 10 (.Call [.Bare "add", .Number i1, .Number i2]) demoScope
          = some (.ok (.Int (i1 + i2)), demoScope))
    ∧ eval 10 (.Call [.Bare "add", .Number 3, .Number 4]) demoScope
        = some (.ok (.Int 7), demoScope)
    ∧ eval 10 (.Call [.Bare "add", .Number 1, .Bare "a"]) demoScope
        = some (.error (.General "Add expected integers"), demoScope) := by
  refine ⟨fun i1 i2 => rfl, ?_, ?_, ?_, ?_, rfl, rfl⟩
  · intro i1 i2 h1 h2
    have hb : applyAdd [Value.Int i1, Value.Int i2]
        = .ok (.Int (wrapI64 (i1 + i2))) := rfl
    rw [hb, wrapI64_eq_self _ h1 h2]
  · intro v1 v2 h
    cases v1 <;> cases v2 <;> simp_all [applyAdd, Value.isInt]
  · intro args h
    simp [applyAdd, h]
  · intro i1 i2 h1 h2
    have hb : eval 10 (.Call [.Bare "add", .Number i1, .Number i2]) demoScope
        = some (.ok (.Int (wrapI64 (i1 + i2))), demoScope) := rfl
    rw [hb, wrapI64_eq_self _ h1 h2]

/-- Witness for C5: the in-range sum, type-error and arity-error
conjuncts at concrete inputs. -/
theorem claim5_add_builtin_witness :
    applyAdd [Value.Int 3, Value.Int 4] = .ok (.Int (3 + 4))
    ∧ applyAdd [Value.Int 1, Value.String "a"] = .error (.General "Add expected integers")
    ∧ applyAdd [Value.Int 3] = .error (.General "Mismatched number of arguments")
    ∧ eval 10 (.Call [.Bare "add", .Number 3, .Number 4]) demoScope
        = some (.ok (.Int (3 + 4)), demoScope) :=
  ⟨claim5_add_builtin.2.1 3 4 (by norm_num) (by norm_num),
   claim5_add_builtin.2.2.1 (Value.Int 1) (Value.String "a") (Or.inr rfl),
   claim5_add_builtin.2.2.2.1 [Value.Int 3] (by decide),
   claim5_add_builtin.2.2.2.2.1 3 4 (by norm_num) (by norm_num)⟩

/-- C3 counterexample: `nope` matches no built-in; the call
`Call [Bare "nope", Set "q" (Number 5)]` returns the placeholder with
the scope UNCHANGED — `q` is unbound afterwards, so the `Set` argument
was never evaluated, contrary to the claim that argument side effects
occur before the external-command handoff. -/
theorem claim3_counterexample :
    demoScope.get_command "nope" = none
    ∧ eval 10 (.Call [.Bare "nope", .Set "q" (.Number 5)]) demoScope
        = some (.ok (.String "Ran an external command"), demoScope)
    ∧ demoScope.get_variable "q" = none :=
  ⟨rfl, rfl, rfl⟩

/-- C3 (amended): when the first element of a `Call` evaluates to a
string matching no registered built-in command, the call returns the
fixed placeholder `String "Ran an external command"` immediately,
WITHOUT evaluating the remaining argument elements — the scope stays
exactly as the callee evaluation left it. -/
theorem claim3_external_command_placeholder :
    ∀ (fuel : Nat) (e0 : Element) (rest : List Element) (s s1 : Scope) (str : String),
      eval fuel e0 s = some (.ok (.String str), s1) →
      s1.get_command str = none →
      eval (fuel + 2) (.Call (e0 :: rest)) s
        = some (.ok (.String "Ran an external command"), s1) := by
  intro fuel e0 rest s s1 str h1 h2
  simp only [eval, eval_call]
  rw [h1]
  dsimp only
  rw [h2]

/-- Witness for C3 (amended): the placeholder result on the concrete
unmatched command, arguments untouched. -/
theorem claim3_external_command_placeholder_witness :
    eval 10 (.Call [.Bare "nope", .Set "q" (.Number 5)]) demoScope
      = some (.ok (.String "Ran an external command"), demoScope) :=
  claim3_external_command_placeholder 8 (.Bare "nope") [.Set "q" (.Number 5)]
    demoScope demoScope "nope" rfl rfl

/-- C9: evaluating a `Block` literal computes its free variables
against an empty known-set; if any of them has no binding in the scope,
`capture_block` (and hence the evaluation of the literal) fails with
the unresolved-variable error, producing no closure value, and leaves
the scope untouched. -/
theorem claim9_capture_unresolved :
    ∀ (b : Block) (s : Scope) (x : String),
      x ∈ Block.get_free_variables b [] →
      s.get_variable x = none →
      capture_block b s = .error (.General "Unknown variable")
      ∧ ∀ fuel : Nat,
          eval (fuel + 1) (.Block b) s
            = some (.error (.General "Unknown variable"), s) := by
  intro b s x hx hnone
  have hc : capture_block b s = .error (.General "Unknown variable") := by
    have hl := captureLoop_unbound (Block.get_free_variables b []) s [] x hx hnone
    simp [capture_block, hl]
  refine ⟨hc, fun fuel => ?_⟩
  simp only [eval]
  rw [hc]

/-- Witness for C9: capturing `{ z }` in the demo scope (no binding for
`z`) fails with the unresolved-variable error. -/
theorem claim9_capture_unresolved_witness :
    capture_block (Block.mk [] [.Variable "z"]) demoScope
      = .error (.General "Unknown variable")
    ∧ ∀ fuel : Nat,
        eval (fuel + 1) (.Block (Block.mk [] [.Variable "z"])) demoScope
          = some (.error (.General "Unknown variable"), demoScope) :=
  claim9_capture_unresolved (Block.mk [] [.Variable "z"]) demoScope "z"
    (by decide) rfl

/-- C2: in the call frame, parameters are bound first and captured
bindings second, in the same record, so a captured name equal to a
parameter name resolves to the captured value, overriding the
argument; end to end, calling a closure with parameter `x`, captured
`x = 99` and argument `1` returns `Int 99`. -/
theorem claim2_captured_overrides_params :
    (∀ (b : Block) (args : List Value) (c : Captured) (s : Scope) (p : String) (v : Value),
      p ∈ b.params → (c.map Prod.fst).Nodup → Captured.get c p = some v →
      (bindCaptured c (bindParams b.params args s.enter_record)).get_variable p = some v)
    ∧ eval 10 (.Call [.Variable "f", .Number 1])
        (demoScope.add_variable "f" (.Block (.mk ["x"] [.Variable "x"]) [("x", .Int 99)]))
        = some (.ok (.Int 99),
            demoScope.add_variable "f" (.Block (.mk ["x"] [.Variable "x"]) [("x", .Int 99)])) := by
  constructor
  · intro b args c s p v _ hn hg
    exact frame_get_captured b.params args c s p v hn hg
  · rfl

/-- Witness for C2: the captured value wins over the argument for the
shared name `x`. -/
theorem claim2_captured_overrides_params_witness :
    (bindCaptured [("x", Value.Int 7)]
        (bindParams ["x"] [Value.Int 5] Scope.new.enter_record)).get_variable "x"
      = some (Value.Int 7) :=
  claim2_captured_overrides_params.1 (Block.mk ["x"] []) [Value.Int 5]
    [("x", Value.Int 7)] Scope.new "x" (Value.Int 7) (by decide) (by decide) rfl

/-- C4: for a call whose callee evaluates to a closure, the remaining
elements are evaluated (left-to-right, side effects retained in the
final scope) BEFORE the arity check; on an arity mismatch the call
fails with the arity error and the final scope is exactly the
post-argument scope — no frame is pushed and no body command runs. -/
theorem claim4_closure_arity :
    ∀ (fuel : Nat) (e0 : Element) (rest : List Element) (s s1 s2 : Scope)
      (b : Block) (captured : Captured) (args : List Value),
      eval fuel e0 s = some (.ok (.Block b captured), s1) →
      evalArgs fuel rest s1 = some (.ok args, s2) →
      args.length ≠ b.params.length →
      eval (fuel + 2) (.Call (e0 :: rest)) s
        = some (.error (.General "Mismatched number of arguments"), s2) := by
  intro fuel e0 rest s s1 s2 b captured args h1 h2 h3
  simp only [eval, eval_call]
  rw [h1]
  dsimp only
  rw [h2]
  dsimp only
  rw [if_pos h3]

/-- Witness for C4: a one-parameter closure called with two arguments,
one of them a `Set`: the arity error is reported and the `Set`'s side
effect is visible in the final scope (the arguments were evaluated). -/
theorem claim4_closure_arity_witness :
    eval 10 (.Call [.Block (.mk ["c"] [.Variable "c"]), .Set "q" (.Number 5), .Number 2])
        demoScope
      = some (.error (.General "Mismatched number of arguments"),
          demoScope.add_variable "q" (.Int 5)) :=
  claim4_closure_arity 8 (.Block (.mk ["c"] [.Variable "c"]))
    [.Set "q" (.Number 5), .Number 2] demoScope demoScope
    (demoScope.add_variable "q" (.Int 5)) (.mk ["c"] [.Variable "c"]) []
    [.Nothing, .Int 2] rfl rfl (by decide)

/-- C1: a closure call resolves every captured name to the value it had
at capture time, not to the current scope binding; concretely, with
`a = n`, capturing `myblock(d) = add(d, a)` records `a = Int n`, and
the call `myblock(12)` returns the `i64` sum of `12` and `n` (equal to
`Int (12 + n)` whenever that sum is representable) no matter what `a`
is later rebound to; with `n = 10` that is `Int 22` before AND after
`Set a = 1100`. -/
theorem claim1_closure_snapshot :
    (∀ (c : Captured) (b : Block) (args : List Value) (s : Scope) (x : String) (v : Value),
      (c.map Prod.fst).Nodup → Captured.get c x = some v →
      (bindCaptured c (bindParams b.params args s.enter_record)).get_variable x = some v)
    ∧ (∀ n : Int,
        eval 10 (.Block myblockBlock) (demoScopeAt n)
          = some (.ok (.Block myblockBlock [("a", .Int n)]), demoScopeAt n))
    ∧ (∀ (n : Int) (v2 : Value),
        eval 10 (.Call [.Variable "myblock", .Number 12])
            (((demoScopeAt n).add_variable "myblock"
                (.Block myblockBlock [("a", .Int n)])).add_variable "a" v2)
          = some (.ok (.Int (wrapI64 (12 + n))),
              ((demoScopeAt n).add_variable "myblock"
                (.Block myblockBlock [("a", .Int n)])).add_variable "a" v2))
    ∧ (∀ (n : Int) (v2 : Value), -(2 ^ 63) ≤ 12 + n → 12 + n < 2 ^ 63 →
        eval 10 (.Call [.Variable "myblock", .Number 12])
            (((demoScopeAt n).add_variable "myblock"
                (.Block myblockBlock [("a", .Int n)])).add_variable "a" v2)
          = some (.ok (.Int (12 + n)),
              ((demoScopeAt n).add_variable "myblock"
                (.Block myblockBlock [("a", .Int n)])).add_variable "a" v2))
    ∧ eval 10 (.Set "myblock" (.Block myblockBlock)) demoScope
        = some (.ok .Nothing,
            demoScope.add_variable "myblock" (.Block myblockBlock [("a", .Int 10)]))
    ∧ eval 10 (.Call [.Variable "myblock", .Number 12])
          (demoScope.add_variable "myblock" (.Block myblockBlock [("a", .Int 10)]))
        = some (.ok (.Int 22),
            demoScope.add_variable "myblock" (.Block myblockBlock [("a", .Int 10)]))
    ∧ eval 10 (.Set "a" (.Number 1100))
          (demoScope.add_variable "myblock" (.Block myblockBlock [("a", .Int 10)]))
        = some (.ok .Nothing,
            (demoScope.add_variable "myblock"
              (.Block myblockBlock [("a", .Int 10)])).add_variable "a" (.Int 1100))
    ∧ eval 10 (.Call [.Variable "myblock", .Number 12])
          ((demoScope.add_variable "myblock"
              (.Block myblockBlock [("a", .Int 10)])).add_variable "a" (.Int 1100))
        = some (.ok (.Int 22),
            (demoScope.add_variable "myblock"
              (.Block myblockBlock [("a", .Int 10)])).add_variable "a" (.Int 1100)) := by
  refine ⟨?_, fun n => rfl, fun n v2 => rfl, ?_, rfl, rfl, rfl, rfl⟩
  · intro c b args s x v hn hg
    exact frame_get_captured b.params args c s x v hn hg
  · intro n v2 h1 h2
    have hb : eval 10 (.Call [.Variable "myblock", .Number 12])
          (((demoScopeAt n).add_variable "myblock"
              (.Block myblockBlock [("a", .Int n)])).add_variable "a" v2)
        = some (.ok (.Int (wrapI64 (12 + n))),
            ((demoScopeAt n).add_variable "myblock"
              (.Block myblockBlock [("a", .Int n)])).add_variable "a" v2) := rfl
    rw [hb, wrapI64_eq_self _ h1 h2]

/-- Witness for C1: the captured binding `a = Int 10` of `myblock` is
what the call frame resolves `a` to, and the call through the rebound
scope returns `Int (12 + 10)`. -/
theorem claim1_closure_snapshot_witness :
    (bindCaptured [("a", Value.Int 10)]
        (bindParams ["d"] [Value.Int 12] Scope.new.enter_record)).get_variable "a"
      = some (Value.Int 10)
    ∧ eval 10 (.Call [.Variable "myblock", .Number 12])
          (((demoScopeAt 10).add_variable "myblock"
              (.Block myblockBlock [("a", .Int 10)])).add_variable "a" (.Int 1100))
        = some (.ok (.Int (12 + 10)),
            ((demoScopeAt 10).add_variable "myblock"
              (.Block myblockBlock [("a", .Int 10)])).add_variable "a" (.Int 1100)) :=
  ⟨claim1_closure_snapshot.1 [("a", Value.Int 10)] myblockBlock [Value.Int 12]
      Scope.new "a" (Value.Int 10) (by decide) rfl,
   claim1_closure_snapshot.2.2.2.1 10 (Value.Int 1100) (by norm_num) (by norm_num)⟩

/-- C10: the outcome of evaluation does not depend on the iteration
order of a closure's captured map — running `callClosure` with any two
permutations of the captured bindings (whose keys are duplicate-free,
as every map produced by `capture_block` is) yields identical results
and identical final scopes; the embedding itself is a function, so
evaluation from equal scopes is definitionally deterministic. -/
theorem claim10_capture_order_independent :
    (∀ (fuel : Nat) (b : Block) (c1 c2 : Captured) (args : List Value) (s : Scope),
      c1.Perm c2 → (c1.map Prod.fst).Nodup →
      callClosure fuel b c1 args s = callClosure fuel b c2 args s)
    ∧ (∀ (b b2 : Block) (s : Scope) (c : Captured),
      capture_block b s = .ok (.Block b2 c) → (c.map Prod.fst).Nodup) := by
  constructor
  · intro fuel b c1 c2 args s hp hn
    cases fuel with
    | zero => rfl
    | succ fuel =>
      simp only [callClosure]
      rw [bindCaptured_perm hp hn]
  · intro b b2 s c h
    simp only [capture_block] at h
    cases hc : captureLoop (Block.get_free_variables b []) s [] with
    | ok cc =>
      rw [hc] at h
      cases h
      exact captureLoop_nodup _ s [] _ (by simp) hc
    | error e => rw [hc] at h; cases h

/-- Witness for C10: a two-binding captured map in its two iteration
orders gives the same call result, and the demo capture has
duplicate-free keys. -/
theorem claim10_capture_order_independent_witness :
    callClosure 5 (Block.mk [] []) [("a", Value.Int 1), ("b", Value.Int 2)] [] demoScope
      = callClosure 5 (Block.mk [] []) [("b", Value.Int 2), ("a", Value.Int 1)] [] demoScope
    ∧ (List.map Prod.fst [("a", Value.Int 10)]).Nodup :=
  ⟨claim10_capture_order_independent.1 5 (Block.mk [] [])
      [("a", Value.Int 1), ("b", Value.Int 2)] [("b", Value.Int 2), ("a", Value.Int 1)]
      [] demoScope (List.Perm.swap _ _ _) (by decide),
   claim10_capture_order_independent.2 myblockBlock myblockBlock demoScope
      [("a", Value.Int 10)] rfl⟩
